import Mathlib

/-!
Verification of the dithering/encoding pipeline of the deliprint repository
(src/dither.py and src/hello.py) against its natural-language specification.

Python byte strings are embedded as `List Nat` (each element an 8-bit sample),
Python integers appearing in error accumulators as `Int` (they go negative),
Python's floor division `//` as `Int.fdiv`, and fallible code (index errors,
assertion failures) as `Option`-returning functions.  The constant `WIDTH`
(imported by src/dither.py from the absent constants.py, and set to 384 in
src/hello.py) is threaded through as an explicit `width` parameter.
-/

/-- `listAdd l i v` models the Python statement `l[i] += v` on a list of
integers (a no-op when `i` is out of range, which never happens in the
modelled code because accumulator lists always have length `width`). -/
def listAdd (l : List Int) (i : Nat) (v : Int) : List Int :=
  l.set i (l.getD i 0 + v)

namespace Dither

/-- The constant 8×8 ordered-dither table of `bayer8_at` in src/dither.py
(copied verbatim, including the repeated entries in the last row). -/
def bayer8_mat : List (List Nat) :=
  [[0, 32, 8, 40, 2, 34, 10, 42],
   [48, 16, 56, 24, 50, 18, 58, 26],
   [12, 44, 4, 36, 14, 46, 6, 38],
   [60, 28, 52, 20, 62, 30, 54, 22],
   [3, 35, 11, 43, 1, 33, 9, 41],
   [51, 19, 59, 27, 49, 17, 57, 25],
   [15, 47, 7, 39, 13, 45, 5, 37],
   [63, 31, 55, 23, 62, 30, 54, 22]]

/-- `bayer8_at(i, j)` from src/dither.py: `mat[j % 8][i % 8] * 4`. -/
def bayer8_at (i j : Nat) : Nat :=
  ((bayer8_mat.getD (j % 8) []).getD (i % 8) 0) * 4

/-- `bayer8` from src/dither.py: per-pixel threshold, emitting `0xFF` when
`byte >= bayer8_at(i, j)` and `0x00` otherwise. -/
def bayer8 (rows : List (List Nat)) : List (List Nat) :=
  rows.enum.map (fun jr =>
    jr.2.enum.map (fun ib => if bayer8_at ib.1 jr.1 ≤ ib.2 then 0xFF else 0x00))

/-- Modelled from the spec: `blue_noise_at` in src/dither.py reads a threshold
tile lazily loaded from the external asset `assets/blue_LDR_LLL1_0.png`, which
is not part of src/.  The tile lookup is abstracted as a function parameter
`blue_noise_at : Nat → Nat → Nat` giving the stored 8-bit value at `(i, j)`.
`blue_noise` itself is src/dither.py's loop: `0xFF` when
`byte > blue_noise_at(i, j)`, else `0x00`. -/
def blue_noise (blue_noise_at : Nat → Nat → Nat) (rows : List (List Nat)) :
    List (List Nat) :=
  rows.enum.map (fun jr =>
    jr.2.enum.map (fun ib => if blue_noise_at ib.1 jr.1 < ib.2 then 0xFF else 0x00))

/-- One column step of `floyd_steinberg` in src/dither.py.  The Python loop
body reads `row[i]` (IndexError, i.e. `none`, when the row is shorter),
overwrites `errors0[i]` with the quantized output, and diffuses
`error = (total - errors0[i]) // 16` with the 7/3/5/1 kernel, skipping
out-of-range neighbours. -/
def fsCol (width : Nat) (row : List Nat) (i : Nat) (e0 e1 : List Int) :
    Option (List Int × List Int) :=
  match row[i]? with
  | none => none
  | some s =>
    let total : Int := (s : Int) + e0.getD i 0
    let out : Int := if 0x3F < total then 0xFF else 0x00
    let e0a := e0.set i out
    let error : Int := Int.fdiv (total - out) 16
    let e0b := if i < width - 1 then listAdd e0a (i + 1) (error * 7) else e0a
    let e1a := if i < width - 1 then listAdd e1 (i + 1) error else e1
    let e1b := if 0 < i then listAdd e1a (i - 1) (error * 3) else e1a
    let e1c := listAdd e1b i (error * 5)
    some (e0b, e1c)

/-- The inner `for i in range(WIDTH)` loop of `floyd_steinberg`, processing
columns `i, i+1, …` while `rem` counts the remaining columns. -/
def fsRowAux (width : Nat) (row : List Nat) :
    Nat → Nat → List Int → List Int → Option (List Int × List Int)
  | _, 0, e0, e1 => some (e0, e1)
  | i, rem + 1, e0, e1 =>
    match fsCol width row i e0 e1 with
    | none => none
    | some (e0a, e1a) => fsRowAux width row (i + 1) rem e0a e1a

/-- One full row of `floyd_steinberg`: runs the column loop with a freshly
zeroed `errors1`; on success returns the yielded row (the final `errors0`,
which by then holds the quantized outputs) and the carried `errors1`. -/
def fsRow (width : Nat) (row : List Nat) (e0 : List Int) :
    Option (List Int × List Int) :=
  fsRowAux width row 0 width e0 (List.replicate width 0)

/-- The generator loop of `floyd_steinberg`: yields rows until the input ends
or a row raises (a too-short row), carrying `errors0 := errors1` between
rows. -/
def floydSteinbergGo (width : Nat) : List (List Nat) → List Int → List (List Int)
  | [], _ => []
  | row :: rest, e0 =>
    match fsRow width row e0 with
    | none => []
    | some (out, e1) => out :: floydSteinbergGo width rest e1

/-- `floyd_steinberg` from src/dither.py with `errors0 = errors1 = [0]*WIDTH`
at stream start. -/
def floyd_steinberg (width : Nat) (rows : List (List Nat)) : List (List Int) :=
  floydSteinbergGo width rows (List.replicate width 0)

/-- One column step of `atkinson` in src/dither.py.  Note the strict
comparison `total > 0x3F` in this file (src/hello.py's copy uses `>=`). -/
def atkCol (width : Nat) (row : List Nat) (i : Nat) (e0 e1 e2 : List Int) :
    Option (List Int × List Int × List Int) :=
  match row[i]? with
  | none => none
  | some s =>
    let total : Int := (s : Int) + e0.getD i 0
    let out : Int := if 0x3F < total then 0xFF else 0x00
    let e0a := e0.set i out
    let error : Int := Int.fdiv (total - out) 8
    let e0b := if i < width - 1 then listAdd e0a (i + 1) error else e0a
    let e0c := if i < width - 2 then listAdd e0b (i + 2) error else e0b
    let e1a := if 0 < i then listAdd e1 (i - 1) error else e1
    let e1b := listAdd e1a i error
    let e1c := if i < width - 1 then listAdd e1b (i + 1) error else e1b
    let e2a := listAdd e2 i error
    some (e0c, e1c, e2a)

/-- The inner column loop of src/dither.py's `atkinson`. -/
def atkRowAux (width : Nat) (row : List Nat) :
    Nat → Nat → List Int → List Int → List Int → Option (List Int × List Int × List Int)
  | _, 0, e0, e1, e2 => some (e0, e1, e2)
  | i, rem + 1, e0, e1, e2 =>
    match atkCol width row i e0 e1 e2 with
    | none => none
    | some (e0a, e1a, e2a) => atkRowAux width row (i + 1) rem e0a e1a e2a

/-- One full row of src/dither.py's `atkinson`: the column loop starts with a
freshly zeroed `errors2`; on success returns the yielded row and the carried
`errors1`, `errors2`. -/
def atkRow (width : Nat) (row : List Nat) (e0 e1 : List Int) :
    Option (List Int × List Int × List Int) :=
  atkRowAux width row 0 width e0 e1 (List.replicate width 0)

/-- The generator loop of src/dither.py's `atkinson`. -/
def atkGo (width : Nat) : List (List Nat) → List Int → List Int → List (List Int)
  | [], _, _ => []
  | row :: rest, e0, e1 =>
    match atkRow width row e0 e1 with
    | none => []
    | some (out, e1a, e2a) => out :: atkGo width rest e1a e2a

/-- `atkinson` from src/dither.py (strict `>` comparator) with all three
accumulators zeroed at stream start. -/
def atkinson (width : Nat) (rows : List (List Nat)) : List (List Int) :=
  atkGo width rows (List.replicate width 0) (List.replicate width 0)

/-- Transcribed from the spec's Floyd–Steinberg description (section 4.3),
for comparison with the source embedding `fsCol`: the quantized output goes
into a separate `output` array rather than overwriting `errors0[i]`. -/
def fsSpecCol (width : Nat) (row : List Nat) (i : Nat) (out e0 e1 : List Int) :
    Option (List Int × List Int × List Int) :=
  match row[i]? with
  | none => none
  | some s =>
    let total : Int := (s : Int) + e0.getD i 0
    let o : Int := if 0x3F < total then 0xFF else 0x00
    let outa := out.set i o
    let error : Int := Int.fdiv (total - o) 16
    let e0a := if i < width - 1 then listAdd e0 (i + 1) (error * 7) else e0
    let e1a := if i < width - 1 then listAdd e1 (i + 1) error else e1
    let e1b := if 0 < i then listAdd e1a (i - 1) (error * 3) else e1a
    let e1c := listAdd e1b i (error * 5)
    some (outa, e0a, e1c)

/-- Column loop of the spec transcription. -/
def fsSpecRowAux (width : Nat) (row : List Nat) :
    Nat → Nat → List Int → List Int → List Int → Option (List Int × List Int × List Int)
  | _, 0, out, e0, e1 => some (out, e0, e1)
  | i, rem + 1, out, e0, e1 =>
    match fsSpecCol width row i out e0 e1 with
    | none => none
    | some (outa, e0a, e1a) => fsSpecRowAux width row (i + 1) rem outa e0a e1a

/-- One row of the spec transcription: yields the output array and carries
`errors1` (spec step 5: `errors0 := errors1`, `errors1 := fresh zeros`). -/
def fsSpecRow (width : Nat) (row : List Nat) (e0 : List Int) :
    Option (List Int × List Int) :=
  match fsSpecRowAux width row 0 width (List.replicate width 0) e0 (List.replicate width 0) with
  | none => none
  | some (out, _, e1) => some (out, e1)

/-- Stream loop of the spec transcription. -/
def floydSteinbergSpecGo (width : Nat) : List (List Nat) → List Int → List (List Int)
  | [], _ => []
  | row :: rest, e0 =>
    match fsSpecRow width row e0 with
    | none => []
    | some (out, e1) => out :: floydSteinbergSpecGo width rest e1

/-- Floyd–Steinberg exactly as worded by the spec (separate output array,
steps 1–5 of section 4.3). -/
def floydSteinbergFromSpec (width : Nat) (rows : List (List Nat)) : List (List Int) :=
  floydSteinbergSpecGo width rows (List.replicate width 0)

end Dither

namespace Hello

/-- `low_high` from src/hello.py: asserts `0 <= value < 65536` and returns
`(value & 0xFF, (value >> 8) & 0xFF)`; on a nonnegative integer these are
`value % 256` and `value / 256 % 256`.  The failed assertion is `none`. -/
def low_high (value : Int) : Option (Nat × Nat) :=
  if 0 ≤ value ∧ value < 65536 then
    some (value.toNat % 256, value.toNat / 256 % 256)
  else none

/-- `prepare_image` from src/hello.py: the 4-byte raster opcode
`GS v 0` (`[0x1d, 0x76, 0x30, 0x00]`), the low/high split of width and
height, then the payload.  No size or capacity check exists in the source. -/
def prepare_image (image : List Nat) (width height : Int) : Option (List Nat) :=
  match low_high width, low_high height with
  | some (x_low, x_high), some (y_low, y_high) =>
    some ([0x1d, 0x76, 0x30, 0x00] ++ [x_low, x_high, y_low, y_high] ++ image)
  | _, _ => none

/-- One column step of `atkinson` in src/hello.py.  Identical to
src/dither.py's copy except for the non-strict comparison `total >= 0x3F`. -/
def atkCol (width : Nat) (row : List Nat) (i : Nat) (e0 e1 e2 : List Int) :
    Option (List Int × List Int × List Int) :=
  match row[i]? with
  | none => none
  | some s =>
    let total : Int := (s : Int) + e0.getD i 0
    let out : Int := if 0x3F ≤ total then 0xFF else 0x00
    let e0a := e0.set i out
    let error : Int := Int.fdiv (total - out) 8
    let e0b := if i < width - 1 then listAdd e0a (i + 1) error else e0a
    let e0c := if i < width - 2 then listAdd e0b (i + 2) error else e0b
    let e1a := if 0 < i then listAdd e1 (i - 1) error else e1
    let e1b := listAdd e1a i error
    let e1c := if i < width - 1 then listAdd e1b (i + 1) error else e1b
    let e2a := listAdd e2 i error
    some (e0c, e1c, e2a)

/-- The inner column loop of src/hello.py's `atkinson`. -/
def atkRowAux (width : Nat) (row : List Nat) :
    Nat → Nat → List Int → List Int → List Int → Option (List Int × List Int × List Int)
  | _, 0, e0, e1, e2 => some (e0, e1, e2)
  | i, rem + 1, e0, e1, e2 =>
    match atkCol width row i e0 e1 e2 with
    | none => none
    | some (e0a, e1a, e2a) => atkRowAux width row (i + 1) rem e0a e1a e2a

/-- One full row of src/hello.py's `atkinson`. -/
def atkRow (width : Nat) (row : List Nat) (e0 e1 : List Int) :
    Option (List Int × List Int × List Int) :=
  atkRowAux width row 0 width e0 e1 (List.replicate width 0)

/-- The generator loop of src/hello.py's `atkinson`. -/
def atkGo (width : Nat) : List (List Nat) → List Int → List Int → List (List Int)
  | [], _, _ => []
  | row :: rest, e0, e1 =>
    match atkRow width row e0 e1 with
    | none => []
    | some (out, e1a, e2a) => out :: atkGo width rest e1a e2a

/-- `atkinson` from src/hello.py (non-strict `>=` comparator). -/
def atkinson (width : Nat) (rows : List (List Nat)) : List (List Int) :=
  atkGo width rows (List.replicate width 0) (List.replicate width 0)

/-- The bit emitted by `encode` in src/hello.py for one sample:
`count += 1` happens exactly when `byte == 0x00`. -/
def bitv (b : Nat) : Nat := if b = 0 then 1 else 0

/-- The loop of `encode` in src/hello.py over one row: `i` is the enumeration
index, `count` the running accumulator; every 8th sample the accumulator is
emitted and reset, and after the loop a partially filled accumulator is
emitted when the row length is not a multiple of 8. -/
def encodeAux : List Nat → Nat → Nat → List Nat
  | [], i, count => if i % 8 ≠ 0 then [count] else []
  | b :: rest, i, count =>
    let c2 := count * 2 + bitv b
    if i % 8 = 7 then c2 :: encodeAux rest (i + 1) 0
    else encodeAux rest (i + 1) c2

/-- `encode` from src/hello.py applied to a single row. -/
def encodeRow (row : List Nat) : List Nat := encodeAux row 0 0

/-- `encode` from src/hello.py: packs each row independently. -/
def encode (rows : List (List Nat)) : List (List Nat) := rows.map encodeRow

/-- The loop of `batched` in src/hello.py: accumulate rows, emit the pending
group as soon as `len(batch) >= batch_size`, and at stream end emit any
non-empty remainder. -/
def batchedAux {α : Type} (batchSize : Nat) : List α → List α → List (List α)
  | batch, [] => if 0 < batch.length then [batch] else []
  | batch, r :: rs =>
    let batch2 := batch ++ [r]
    if batchSize ≤ batch2.length then batch2 :: batchedAux batchSize [] rs
    else batchedAux batchSize batch2 rs

/-- `batched` from src/hello.py. -/
def batched {α : Type} (rows : List α) (batchSize : Nat) : List (List α) :=
  batchedAux batchSize [] rows

/-- MSB-first value of one group of up to 8 samples, as accumulated by the
shift-and-add loop of `encode`. -/
def packGroup (g : List Nat) : Nat := g.foldl (fun c b => c * 2 + bitv b) 0

/-- Split a row into consecutive groups of 8 samples, the last group holding
the `length % 8` leftovers. -/
def chunks8 : List Nat → List (List Nat)
  | [] => []
  | b :: rest => (b :: rest.take 7) :: chunks8 (rest.drop 7)
termination_by l => l.length
decreasing_by simp [List.length_drop]; omega

/-- Bit `k` of a packed row of `n` decisions, as laid out by `encode`:
decisions in complete groups of 8 sit MSB-first in byte `k / 8`; the final
partial group of `n % 8` decisions sits in the low-order bits of the final
byte (MSB-first among themselves). -/
def bitAt (n : Nat) (bs : List Nat) (k : Nat) : Nat :=
  if k / 8 < n / 8 then bs.getD (k / 8) 0 / 2 ^ (7 - k % 8) % 2
  else bs.getD (n / 8) 0 / 2 ^ (n % 8 - 1 - k % 8) % 2

/-- The test-only inverse of the packer: recover the `n` packed decisions. -/
def unpackBits (n : Nat) (bs : List Nat) : List Nat :=
  (List.range n).map (bitAt n bs)

end Hello

/-! ### Helper lemmas about `listAdd` and `List.set` -/

lemma listAdd_length (l : List Int) (i : Nat) (v : Int) :
    (listAdd l i v).length = l.length := by
  simp [listAdd]

lemma getD_set (l : List Int) (i p : Nat) (a : Int) :
    (l.set i a).getD p 0 = if p = i ∧ i < l.length then a else l.getD p 0 := by
  by_cases hpi : p = i
  · subst hpi
    by_cases hl : p < l.length
    · simp [List.getD_eq_getElem?_getD, List.getElem?_set_eq_of_lt, hl]
    · rw [List.set_eq_of_length_le (by omega)]
      simp [hl]
  · simp [List.getD_eq_getElem?_getD, List.getElem?_set_ne (fun h => hpi h.symm), hpi]

lemma listAdd_getD (l : List Int) (i p : Nat) (v : Int) :
    (listAdd l i v).getD p 0 =
      if p = i ∧ i < l.length then l.getD p 0 + v else l.getD p 0 := by
  rw [listAdd, getD_set]
  by_cases hpi : p = i
  · subst hpi; rfl
  · simp [hpi]

/-! ### Claims C1, C2 and C7: the raster frame builder `prepare_image` -/

/-- Claim C1, counterexample: the frame builder does not fail on a
width*height / payload-length mismatch.  `prepare_image([0], 2, 2)` succeeds
and returns a full frame although the payload length 1 differs from
`2 * 2 = 4`, so no `SizeMismatch` failure exists in the code. -/
theorem c1_counterexample :
    Hello.prepare_image [0] 2 2 = some [0x1d, 0x76, 0x30, 0x00, 2, 0, 2, 0, 0] ∧
    (([0] : List Nat).length : Int) ≠ 2 * 2 := by
  constructor
  · decide
  · decide

/-- Claim C1, amended: `prepare_image` performs no payload-size check at all.
For every payload and every width/height in 16-bit range whose product
differs from the payload length, the builder still succeeds, so frames handed
to the transport need not satisfy `payload.length == width * height`. -/
theorem c1_no_size_check (payload : List Nat) (w h : Int)
    (hw0 : 0 ≤ w) (hw : w < 65536) (hh0 : 0 ≤ h) (hh : h < 65536)
    (hmis : (payload.length : Int) ≠ w * h) :
    (Hello.prepare_image payload w h).isSome = true := by
  simp [Hello.prepare_image, Hello.low_high, hw0, hw, hh0, hh]

/-- Witness for `c1_no_size_check` at payload `[0]`, width 2, height 2. -/
theorem c1_witness : (Hello.prepare_image [0] 2 2).isSome = true :=
  c1_no_size_check [0] 2 2 (by norm_num) (by norm_num) (by norm_num) (by norm_num)
    (by norm_num)

/-- Claim C2, counterexample: the frame builder does not fail on
width*height > 4096 either.  `prepare_image(bytes(1), 64, 65)` succeeds and
returns a frame, although `64 * 65 = 4160 > 4096`, so no `CapacityExceeded`
failure exists in the code. -/
theorem c2_counterexample :
    Hello.prepare_image (List.replicate 1 0) 64 65 =
      some [0x1d, 0x76, 0x30, 0x00, 64, 0, 65, 0, 0] ∧
    (4096 : Int) < 64 * 65 := by
  constructor
  · decide
  · decide

/-- Claim C2, amended: no capacity check exists.  For every payload and every
width/height in 16-bit range with `width * height > 4096`, `prepare_image`
still succeeds and produces a frame; in particular `buildFrame(bytes(1), 64, 65)`
succeeds instead of failing with `CapacityExceeded`. -/
theorem c2_no_capacity_check :
    (∀ (payload : List Nat) (w h : Int), 0 ≤ w → w < 65536 → 0 ≤ h → h < 65536 →
      4096 < w * h → (Hello.prepare_image payload w h).isSome = true) ∧
    Hello.prepare_image (List.replicate 1 0) 64 65 =
      some [0x1d, 0x76, 0x30, 0x00, 64, 0, 65, 0, 0] := by
  constructor
  · intro payload w h hw0 hw hh0 hh _
    simp [Hello.prepare_image, Hello.low_high, hw0, hw, hh0, hh]
  · decide

/-- Witness for `c2_no_capacity_check` at payload `[0]`, width 64, height 65. -/
theorem c2_witness : (Hello.prepare_image [0] 64 65).isSome = true :=
  c2_no_capacity_check.1 [0] 64 65 (by norm_num) (by norm_num) (by norm_num)
    (by norm_num) (by norm_num)

/-- Claim C7: for every payload whose length equals `width * height`, with
width and height in 16-bit range, `prepare_image` succeeds and returns
exactly the opcode `[0x1D, 0x76, 0x30, 0x00]`, then width and height each
split into a low byte and a high byte (little-endian: `low + 256 * high`
reconstructs the value), then the unmodified payload. -/
theorem c7_frame_layout (payload : List Nat) (w h : Int)
    (hw0 : 0 ≤ w) (hw : w < 65536) (hh0 : 0 ≤ h) (hh : h < 65536)
    (hlen : (payload.length : Int) = w * h) :
    ∃ wLow wHigh hLow hHigh : Nat,
      Hello.prepare_image payload w h =
        some (0x1d :: 0x76 :: 0x30 :: 0x00 :: wLow :: wHigh :: hLow :: hHigh :: payload) ∧
      (wLow : Int) + 256 * wHigh = w ∧ wLow < 256 ∧ wHigh < 256 ∧
      (hLow : Int) + 256 * hHigh = h ∧ hLow < 256 ∧ hHigh < 256 := by
  refine ⟨w.toNat % 256, w.toNat / 256 % 256, h.toNat % 256, h.toNat / 256 % 256,
    ?_, by omega, by omega, by omega, by omega, by omega, by omega⟩
  simp [Hello.prepare_image, Hello.low_high, hw0, hw, hh0, hh]

/-- Witness for `c7_frame_layout` at payload `[5, 6, 7, 8]`, width 2, height 2. -/
theorem c7_witness :
    ∃ wLow wHigh hLow hHigh : Nat,
      Hello.prepare_image [5, 6, 7, 8] 2 2 =
        some (0x1d :: 0x76 :: 0x30 :: 0x00 :: wLow :: wHigh :: hLow :: hHigh :: [5, 6, 7, 8]) ∧
      (wLow : Int) + 256 * wHigh = 2 ∧ wLow < 256 ∧ wHigh < 256 ∧
      (hLow : Int) + 256 * hHigh = 2 ∧ hLow < 256 ∧ hHigh < 256 :=
  c7_frame_layout [5, 6, 7, 8] 2 2 (by norm_num) (by norm_num) (by norm_num)
    (by norm_num) (by norm_num)

/-! ### Claim C3: the Atkinson quantizer -/

lemma getD_listAdd_ne (l : List Int) {i p : Nat} (v : Int) (h : p ≠ i) :
    (listAdd l i v).getD p 0 = l.getD p 0 := by
  rw [listAdd_getD]; simp [h]

lemma getD_ite_listAdd (c : Prop) [Decidable c] (l : List Int) {i p : Nat} (v : Int)
    (h : p ≠ i) :
    (if c then listAdd l i v else l).getD p 0 = l.getD p 0 := by
  split
  · exact getD_listAdd_ne l v h
  · rfl

/-- Claim C3, counterexample: on the spec's own concrete case (a width-8 row
of constant `0x3F` with zero incoming error) neither Atkinson implementation
produces a uniform `0xFF` row.  src/dither.py quantizes with strict `>`
(column 0 gives `0x00`), and even src/hello.py's `>=` variant diffuses
`error = (0x3F - 0xFF) // 8 = -24 ≠ 0`, so later columns drop to `0x00`. -/
theorem c3_counterexample :
    Dither.atkinson 8 [List.replicate 8 0x3F] = [[0, 255, 0, 0, 255, 0, 0, 255]] ∧
    Hello.atkinson 8 [List.replicate 8 0x3F] = [[255, 0, 0, 255, 0, 0, 255, 0]] ∧
    [[(0 : Int), 255, 0, 0, 255, 0, 0, 255]] ≠ [List.replicate 8 (0xFF : Int)] ∧
    [[(255 : Int), 0, 0, 255, 0, 0, 255, 0]] ≠ [List.replicate 8 (0xFF : Int)] := by
  refine ⟨by decide, by decide, by decide, by decide⟩

/-- Claim C3, amended: src/hello.py's Atkinson quantizes with the non-strict
comparison (output `0xFF` exactly when `sample + incomingError >= 0x3F`),
while src/dither.py's copy uses the strict `>`.  On the constant `0x3F`
width-8 row with zero incoming error, column 0 of the hello.py variant is
`0xFF`, but the diffused error is `(0x3F - 0xFF) // 8 = -24`, not `0`: the
row comes out `[FF 00 00 FF 00 00 FF 00]` and the carried accumulators are
nonzero. -/
theorem c3_amended :
    (∀ (width : Nat) (row : List Nat) (i : Nat) (e0 e1 e2 : List Int) (s : Nat)
        (r : List Int × List Int × List Int),
        Hello.atkCol width row i e0 e1 e2 = some r → row[i]? = some s →
        i < e0.length →
        ((r.1.getD i 0 = 0xFF ↔ (0x3F : Int) ≤ (s : Int) + e0.getD i 0) ∧
          (r.1.getD i 0 = 0xFF ∨ r.1.getD i 0 = 0x00))) ∧
    (∀ (width : Nat) (row : List Nat) (i : Nat) (e0 e1 e2 : List Int) (s : Nat)
        (r : List Int × List Int × List Int),
        Dither.atkCol width row i e0 e1 e2 = some r → row[i]? = some s →
        i < e0.length →
        (r.1.getD i 0 = 0xFF ↔ (0x3F : Int) < (s : Int) + e0.getD i 0)) ∧
    Hello.atkinson 8 [List.replicate 8 0x3F] = [[255, 0, 0, 255, 0, 0, 255, 0]] ∧
    Hello.atkRow 8 (List.replicate 8 0x3F) (List.replicate 8 0) (List.replicate 8 0) =
      some ([255, 0, 0, 255, 0, 0, 255, 0],
        [-20, -15, -14, -13, -13, -13, -13, -18],
        [-24, 4, 5, -23, 5, 5, -23, 5]) := by
  refine ⟨?_, ?_, by decide, by decide⟩
  · intro width row i e0 e1 e2 s r hcol hget hlen
    simp only [Hello.atkCol, hget] at hcol
    injection hcol with hcol
    subst hcol
    simp only
    rw [getD_ite_listAdd _ _ _ (by omega : i ≠ i + 2),
      getD_ite_listAdd _ _ _ (by omega : i ≠ i + 1), getD_set,
      if_pos ⟨rfl, hlen⟩]
    constructor
    · constructor
      · intro hx
        by_contra hc
        rw [if_neg hc] at hx
        norm_num at hx
      · intro hx
        rw [if_pos hx]
    · by_cases hx : (0x3F : Int) ≤ (s : Int) + e0.getD i 0
      · left; rw [if_pos hx]
      · right; rw [if_neg hx]
  · intro width row i e0 e1 e2 s r hcol hget hlen
    simp only [Dither.atkCol, hget] at hcol
    injection hcol with hcol
    subst hcol
    simp only
    rw [getD_ite_listAdd _ _ _ (by omega : i ≠ i + 2),
      getD_ite_listAdd _ _ _ (by omega : i ≠ i + 1), getD_set,
      if_pos ⟨rfl, hlen⟩]
    constructor
    · intro hx
      by_contra hc
      rw [if_neg hc] at hx
      norm_num at hx
    · intro hx
      rw [if_pos hx]

/-- Witness for `c3_amended`: the hello.py quantizer at width 1, row `[70]`,
zero error, compared through the first conjunct. -/
theorem c3_witness :
    ((([(255 : Int)], [(-24 : Int)], [(-24 : Int)]).1.getD 0 0 = 0xFF ↔
        (0x3F : Int) ≤ ((70 : Nat) : Int) + [(0 : Int)].getD 0 0) ∧
      ((([(255 : Int)], [(-24 : Int)], [(-24 : Int)]).1.getD 0 0 = 0xFF) ∨
        (([(255 : Int)], [(-24 : Int)], [(-24 : Int)]).1.getD 0 0 = 0x00))) :=
  c3_amended.1 1 [70] 0 [0] [0] [0] 70 ([255], [-24], [-24]) (by decide) (by decide)
    (by decide)

/-! ### Claim C8: the row batcher -/

lemma batchedAux_ne_nil {α : Type} (n : Nat) :
    ∀ (rows acc : List α), rows ≠ [] ∨ acc ≠ [] → Hello.batchedAux n acc rows ≠ [] := by
  intro rows
  induction rows with
  | nil =>
    intro acc h
    have hacc : acc ≠ [] := h.resolve_left (fun h' => h' rfl)
    simp only [Hello.batchedAux]
    rw [if_pos (List.length_pos.mpr hacc)]
    simp
  | cons r rs ih =>
    intro acc _
    simp only [Hello.batchedAux]
    split
    · simp
    · exact ih (acc ++ [r]) (Or.inr (by simp))

lemma batchedAux_join {α : Type} (n : Nat) :
    ∀ (rows acc : List α), (Hello.batchedAux n acc rows).flatten = acc ++ rows := by
  intro rows
  induction rows with
  | nil =>
    intro acc
    by_cases h : 0 < acc.length
    · simp [Hello.batchedAux, h]
    · have hacc : acc = [] := by
        rcases acc with _ | ⟨a, as⟩
        · rfl
        · simp at h
      simp [Hello.batchedAux, hacc]
  | cons r rs ih =>
    intro acc
    simp only [Hello.batchedAux]
    split
    · simp [ih []]
    · rw [ih (acc ++ [r])]
      simp

lemma batchedAux_length {α : Type} (n : Nat) (hn : 1 ≤ n) :
    ∀ (rows acc : List α), acc.length < n →
      (Hello.batchedAux n acc rows).length = (acc.length + rows.length + n - 1) / n := by
  intro rows
  induction rows with
  | nil =>
    intro acc hacc
    by_cases h : 0 < acc.length
    · simp only [Hello.batchedAux, if_pos h, List.length_singleton, List.length_nil]
      have h1 : acc.length + 0 + n - 1 = (acc.length - 1) + n := by omega
      rw [h1, Nat.add_div_right _ (by omega), Nat.div_eq_of_lt (by omega)]
    · simp only [Hello.batchedAux, if_neg h, List.length_nil]
      rw [Nat.div_eq_of_lt (by omega)]
  | cons r rs ih =>
    intro acc hacc
    simp only [Hello.batchedAux, List.length_append, List.length_singleton]
    split
    · next hcond =>
      simp only [List.length_cons]
      rw [ih [] (by simp only [List.length_nil]; omega)]
      simp only [List.length_nil]
      have h2 : acc.length + (rs.length + 1) + n - 1 = (0 + rs.length + n - 1) + n := by
        omega
      rw [h2, Nat.add_div_right _ (by omega)]
    · next hcond =>
      rw [ih (acc ++ [r]) (by simp; omega)]
      congr 1
      simp
      omega

lemma batchedAux_dropLast {α : Type} (n : Nat) (hn : 1 ≤ n) :
    ∀ (rows acc : List α), acc.length < n →
      ∀ g ∈ (Hello.batchedAux n acc rows).dropLast, g.length = n := by
  intro rows
  induction rows with
  | nil =>
    intro acc hacc g hg
    by_cases h : 0 < acc.length
    · simp [Hello.batchedAux, h] at hg
    · simp [Hello.batchedAux, h] at hg
  | cons r rs ih =>
    intro acc hacc g hg
    simp only [Hello.batchedAux, List.length_append, List.length_singleton] at hg
    split at hg
    · next hcond =>
      rcases hrs : Hello.batchedAux n ([] : List α) rs with _ | ⟨x, xs⟩
      · rw [hrs] at hg
        simp at hg
      · rw [hrs, List.dropLast_cons₂, List.mem_cons] at hg
        rcases hg with hg | hg
        · subst hg
          simp
          omega
        · exact ih [] (by simp only [List.length_nil]; omega) g (by rw [hrs]; exact hg)
    · exact ih (acc ++ [r]) (by simp; omega) g hg

lemma batchedAux_getLast {α : Type} (n : Nat) (hn : 1 ≤ n) :
    ∀ (rows acc : List α), acc.length < n →
      ∀ g, (Hello.batchedAux n acc rows).getLast? = some g →
        g.length =
          if (acc.length + rows.length) % n = 0 then n
          else (acc.length + rows.length) % n := by
  intro rows
  induction rows with
  | nil =>
    intro acc hacc g hg
    by_cases h : 0 < acc.length
    · simp only [Hello.batchedAux, if_pos h] at hg
      simp only [List.getLast?_singleton, Option.some.injEq] at hg
      subst hg
      simp only [List.length_nil, Nat.add_zero]
      rw [Nat.mod_eq_of_lt hacc, if_neg (by omega)]
    · simp [Hello.batchedAux, h] at hg
  | cons r rs ih =>
    intro acc hacc g hg
    simp only [Hello.batchedAux, List.length_append, List.length_singleton] at hg
    split at hg
    · next hcond =>
      rcases hrs : Hello.batchedAux n ([] : List α) rs with _ | ⟨x, xs⟩
      · have hrsnil : rs = [] := by
          rcases rs with _ | ⟨r', rs'⟩
          · rfl
          · exact absurd hrs (batchedAux_ne_nil n (r' :: rs') [] (Or.inl (by simp)))
        subst hrsnil
        rw [hrs] at hg
        simp only [List.getLast?_singleton, Option.some.injEq] at hg
        subst hg
        simp only [List.length_append, List.length_singleton, List.length_cons,
          List.length_nil]
        have hzero : (acc.length + (0 + 1)) % n = 0 := by
          rw [show acc.length + (0 + 1) = n by omega, Nat.mod_self]
        rw [if_pos hzero]
        omega
      · rw [hrs, List.getLast?_cons_cons, ← hrs] at hg
        have hlast := ih [] (by simp only [List.length_nil]; omega) g hg
        rw [hlast]
        simp only [List.length_nil, List.length_cons]
        have hmod : (acc.length + (rs.length + 1)) % n = (0 + rs.length) % n := by
          rw [show acc.length + (rs.length + 1) = rs.length + n by omega]
          simp [Nat.add_mod_right]
        rw [hmod]
    · next hcond =>
      have hlast := ih (acc ++ [r])
        (by simp only [List.length_append, List.length_singleton]; omega) g hg
      rw [hlast, show (acc ++ [r]).length + rs.length = acc.length + (rs.length + 1) by
        simp only [List.length_append, List.length_singleton]; omega,
        List.length_cons]

/-- Claim C8: for every batch size `n ≥ 1` and finite row stream, `batched`
emits `ceil(L/n)` groups, every group except possibly the last has exactly
`n` rows, the last group has `L mod n` rows (or `n` when `n` divides `L`),
and concatenating the groups reproduces the input exactly. -/
theorem c8_batcher {α : Type} (n : Nat) (rows : List α) (hn : 1 ≤ n) :
    (Hello.batched rows n).length = (rows.length + n - 1) / n ∧
    (Hello.batched rows n).flatten = rows ∧
    (∀ g ∈ (Hello.batched rows n).dropLast, g.length = n) ∧
    (∀ g, (Hello.batched rows n).getLast? = some g →
      g.length = if rows.length % n = 0 then n else rows.length % n) := by
  refine ⟨?_, ?_, ?_, ?_⟩
  · have h := batchedAux_length n hn rows [] (by simp; omega)
    simpa [Hello.batched] using h
  · have h := batchedAux_join n rows []
    simpa [Hello.batched] using h
  · intro g hg
    exact batchedAux_dropLast n hn rows [] (by simp; omega) g hg
  · intro g hg
    have h := batchedAux_getLast n hn rows [] (by simp; omega) g hg
    simpa using h

/-- Witness for `c8_batcher`: five rows batched in groups of two. -/
theorem c8_witness :
    (Hello.batched [[(1 : Nat)], [2], [3], [4], [5]] 2).length =
      (([[(1 : Nat)], [2], [3], [4], [5]] : List (List Nat)).length + 2 - 1) / 2 ∧
    (Hello.batched [[(1 : Nat)], [2], [3], [4], [5]] 2).flatten =
      [[(1 : Nat)], [2], [3], [4], [5]] ∧
    (∀ g ∈ (Hello.batched [[(1 : Nat)], [2], [3], [4], [5]] 2).dropLast, g.length = 2) ∧
    (∀ g, (Hello.batched [[(1 : Nat)], [2], [3], [4], [5]] 2).getLast? = some g →
      g.length =
        if ([[(1 : Nat)], [2], [3], [4], [5]] : List (List Nat)).length % 2 = 0 then 2
        else ([[(1 : Nat)], [2], [3], [4], [5]] : List (List Nat)).length % 2) :=
  c8_batcher 2 [[1], [2], [3], [4], [5]] (by norm_num)

/-! ### Claim C9: contract violations (short rows, long rows, batch size 0) -/

lemma fsRowAux_none_of_short (width : Nat) (row : List Nat) :
    ∀ (rem i : Nat) (e0 e1 : List Int), i + rem = width → i ≤ row.length →
      row.length < width → Dither.fsRowAux width row i rem e0 e1 = none := by
  intro rem
  induction rem with
  | zero =>
    intro i e0 e1 hiw hle hlt
    omega
  | succ rem ih =>
    intro i e0 e1 hiw hle hlt
    by_cases hi : i < row.length
    · obtain ⟨s, hs⟩ : ∃ s, row[i]? = some s :=
        ⟨row[i], List.getElem?_eq_getElem hi⟩
      simp only [Dither.fsRowAux, Dither.fsCol, hs]
      exact ih (i + 1) _ _ (by omega) (by omega) hlt
    · simp only [Dither.fsRowAux, Dither.fsCol, List.getElem?_eq_none (by omega : row.length ≤ i)]

lemma batchedAux_zero {α : Type} :
    ∀ (rows : List α), Hello.batchedAux 0 [] rows = rows.map (fun r => [r]) := by
  intro rows
  induction rows with
  | nil => simp [Hello.batchedAux]
  | cons r rs ih =>
    simp only [Hello.batchedAux]
    rw [if_pos (Nat.zero_le _)]
    simp [ih]

lemma fsRowAux_take (width : Nat) (row : List Nat) :
    ∀ (rem i : Nat) (e0 e1 : List Int), i + rem = width →
      Dither.fsRowAux width row i rem e0 e1 =
        Dither.fsRowAux width (row.take width) i rem e0 e1 := by
  intro rem
  induction rem with
  | zero => intro i e0 e1 _; rfl
  | succ rem ih =>
    intro i e0 e1 hiw
    have hget : (row.take width)[i]? = row[i]? := List.getElem?_take_of_lt (by omega)
    simp only [Dither.fsRowAux, Dither.fsCol, hget]
    cases hg : row[i]? with
    | none => rfl
    | some s => exact ih (i + 1) _ _ (by omega)

lemma fsRowAux_isSome (width : Nat) (row : List Nat) (hlen : width ≤ row.length) :
    ∀ (rem i : Nat) (e0 e1 : List Int), i + rem = width →
      (Dither.fsRowAux width row i rem e0 e1).isSome = true := by
  intro rem
  induction rem with
  | zero => intro i e0 e1 _; rfl
  | succ rem ih =>
    intro i e0 e1 hiw
    obtain ⟨s, hs⟩ : ∃ s, row[i]? = some s :=
      ⟨row.get ⟨i, by omega⟩, List.getElem?_eq_getElem (by omega)⟩
    simp only [Dither.fsRowAux, Dither.fsCol, hs]
    exact ih (i + 1) _ _ (by omega)

/-- Claim C9, counterexample: the code does not always abort on a contract
violation.  `batched` with batch size 0 happily yields every row as its own
singleton group instead of aborting, and `floyd_steinberg` on a row longer
than the configured width silently truncates it (here width 1, row of
length 2) instead of aborting. -/
theorem c9_counterexample :
    Hello.batched [[(7 : Nat)]] 0 = [[[7]]] ∧
    Dither.fsRow 1 [100, 200] [0] = some ([255], [-50]) ∧
    ([100, 200] : List Nat).length ≠ 1 := by
  refine ⟨by decide, by decide, by decide⟩

/-- Claim C9, amended: a row shorter than the configured width aborts the
Floyd–Steinberg stage (an uncaught IndexError, modelled as `none`), but a
row longer than the width is silently truncated to its first `width` samples
rather than aborting, and a batch size of zero is not detected: `batched`
emits every row as its own singleton group. -/
theorem c9_amended :
    (∀ (width : Nat) (row : List Nat) (e0 : List Int), row.length < width →
      Dither.fsRow width row e0 = none) ∧
    (∀ (rows : List (List Nat)), Hello.batched rows 0 = rows.map (fun r => [r])) ∧
    (∀ (width : Nat) (row : List Nat) (e0 : List Int),
      Dither.fsRow width row e0 = Dither.fsRow width (row.take width) e0) ∧
    (∀ (width : Nat) (row : List Nat) (e0 : List Int), width ≤ row.length →
      (Dither.fsRow width row e0).isSome = true) := by
  refine ⟨?_, ?_, ?_, ?_⟩
  · intro width row e0 h
    exact fsRowAux_none_of_short width row width 0 e0 _ (by omega) (by omega) h
  · intro rows
    exact batchedAux_zero rows
  · intro width row e0
    exact fsRowAux_take width row width 0 e0 _ (by omega)
  · intro width row e0 h
    exact fsRowAux_isSome width row h width 0 e0 _ (by omega)

/-- Witness for `c9_amended` at concrete rows and widths. -/
theorem c9_witness :
    Dither.fsRow 2 [5] [0, 0] = none ∧
    Hello.batched [[(1 : Nat)], [2]] 0 = [[(1 : Nat)], [2]].map (fun r => [r]) ∧
    Dither.fsRow 1 [100, 200] [0] = Dither.fsRow 1 (([100, 200] : List Nat).take 1) [0] ∧
    (Dither.fsRow 1 [100, 200] [0]).isSome = true :=
  ⟨c9_amended.1 2 [5] [0, 0] (by decide), c9_amended.2.1 [[1], [2]],
    c9_amended.2.2.1 1 [100, 200] [0], c9_amended.2.2.2 1 [100, 200] [0] (by decide)⟩

/-! ### Claim C10: dithered rows contain only 0x00 and 0xFF -/

lemma ite_listAdd_length (c : Prop) [Decidable c] (l : List Int) (k : Nat) (v : Int) :
    (if c then listAdd l k v else l).length = l.length := by
  split
  · exact listAdd_length l k v
  · rfl

lemma fsCol_lengths (width : Nat) (row : List Nat) (i : Nat) (e0 e1 e0a e1a : List Int)
    (h : Dither.fsCol width row i e0 e1 = some (e0a, e1a)) :
    e0a.length = e0.length ∧ e1a.length = e1.length := by
  cases hg : row[i]? with
  | none => rw [Dither.fsCol, hg] at h; cases h
  | some s =>
    simp only [Dither.fsCol, hg] at h
    injection h with h
    rw [Prod.mk.injEq] at h
    obtain ⟨h1, h2⟩ := h
    subst h1
    subst h2
    constructor
    · rw [ite_listAdd_length, List.length_set]
    · rw [listAdd_length, ite_listAdd_length, ite_listAdd_length]

lemma fsRowAux_lengths (width : Nat) (row : List Nat) :
    ∀ (rem i : Nat) (e0 e1 o e1a : List Int),
      Dither.fsRowAux width row i rem e0 e1 = some (o, e1a) →
      o.length = e0.length ∧ e1a.length = e1.length := by
  intro rem
  induction rem with
  | zero =>
    intro i e0 e1 o e1a h
    simp only [Dither.fsRowAux] at h
    injection h with h
    rw [Prod.mk.injEq] at h
    obtain ⟨h1, h2⟩ := h
    subst h1
    subst h2
    exact ⟨rfl, rfl⟩
  | succ rem ih =>
    intro i e0 e1 o e1a h
    cases hc : Dither.fsCol width row i e0 e1 with
    | none => rw [Dither.fsRowAux, hc] at h; cases h
    | some pr =>
      obtain ⟨e0b, e1b⟩ := pr
      rw [Dither.fsRowAux, hc] at h
      have hlen := fsCol_lengths width row i e0 e1 e0b e1b hc
      have hrec := ih (i + 1) e0b e1b o e1a h
      exact ⟨hrec.1.trans hlen.1, hrec.2.trans hlen.2⟩

lemma fsRowAux_bin (width : Nat) (row : List Nat) :
    ∀ (rem i : Nat) (e0 e1 o e1a : List Int), i + rem = width → e0.length = width →
      (∀ p, p < i → e0.getD p 0 = 0x00 ∨ e0.getD p 0 = 0xFF) →
      Dither.fsRowAux width row i rem e0 e1 = some (o, e1a) →
      ∀ p, p < width → o.getD p 0 = 0x00 ∨ o.getD p 0 = 0xFF := by
  intro rem
  induction rem with
  | zero =>
    intro i e0 e1 o e1a hiw hlen hbin h
    simp only [Dither.fsRowAux] at h
    injection h with h
    rw [Prod.mk.injEq] at h
    obtain ⟨h1, h2⟩ := h
    subst h1
    exact fun p hp => hbin p (by omega)
  | succ rem ih =>
    intro i e0 e1 o e1a hiw hlen hbin h
    cases hg : row[i]? with
    | none =>
      rw [Dither.fsRowAux, Dither.fsCol, hg] at h
      cases h
    | some s =>
      simp only [Dither.fsRowAux, Dither.fsCol, hg] at h
      refine ih (i + 1) _ _ o e1a (by omega) ?_ ?_ h
      · rw [ite_listAdd_length, List.length_set]
        exact hlen
      · intro p hp
        rw [getD_ite_listAdd _ _ _ (by omega : p ≠ i + 1), getD_set]
        by_cases hpi : p = i
        · subst hpi
          rw [if_pos ⟨rfl, by omega⟩]
          by_cases hq : (0x3F : Int) < (s : Int) + e0.getD p 0
          · right; rw [if_pos hq]
          · left; rw [if_neg hq]
        · rw [if_neg (by tauto)]
          exact hbin p (by omega)

lemma floydSteinbergGo_bin (width : Nat) :
    ∀ (rows : List (List Nat)) (e0 : List Int), e0.length = width →
      ∀ out ∈ Dither.floydSteinbergGo width rows e0, ∀ b ∈ out,
        b = 0x00 ∨ b = 0xFF := by
  intro rows
  induction rows with
  | nil =>
    intro e0 _ out hout
    simp [Dither.floydSteinbergGo] at hout
  | cons row rest ih =>
    intro e0 hlen out hout b hb
    rw [Dither.floydSteinbergGo] at hout
    cases hr : Dither.fsRow width row e0 with
    | none =>
      rw [hr] at hout
      simp at hout
    | some pr =>
      obtain ⟨o, e1⟩ := pr
      rw [hr] at hout
      simp only [List.mem_cons] at hout
      rcases hout with rfl | hout
      · have hbin := fsRowAux_bin width row width 0 e0 (List.replicate width 0) out e1
          (by omega) hlen (fun p hp => absurd hp (by omega)) hr
        have holen : out.length = width := by
          have := fsRowAux_lengths width row width 0 e0 (List.replicate width 0) out e1 hr
          rw [this.1, hlen]
        obtain ⟨p, hp, hpb⟩ := List.mem_iff_getElem.mp hb
        have hres := hbin p (by omega)
        rwa [List.getD_eq_getElem out 0 hp, hpb] at hres
      · have he1 : e1.length = width := by
          have := fsRowAux_lengths width row width 0 e0 (List.replicate width 0) o e1 hr
          rw [this.2, List.length_replicate]
        exact ih e1 he1 out hout b hb

lemma atkCol_lengths (width : Nat) (row : List Nat) (i : Nat)
    (e0 e1 e2 e0a e1a e2a : List Int)
    (h : Dither.atkCol width row i e0 e1 e2 = some (e0a, e1a, e2a)) :
    e0a.length = e0.length ∧ e1a.length = e1.length ∧ e2a.length = e2.length := by
  cases hg : row[i]? with
  | none => rw [Dither.atkCol, hg] at h; cases h
  | some s =>
    simp only [Dither.atkCol, hg] at h
    injection h with h
    rw [Prod.mk.injEq] at h
    obtain ⟨h1, h2⟩ := h
    rw [Prod.mk.injEq] at h2
    obtain ⟨h2, h3⟩ := h2
    subst h1
    subst h2
    subst h3
    refine ⟨?_, ?_, ?_⟩
    · rw [ite_listAdd_length, ite_listAdd_length, List.length_set]
    · rw [ite_listAdd_length, listAdd_length, ite_listAdd_length]
    · rw [listAdd_length]

lemma atkRowAux_lengths (width : Nat) (row : List Nat) :
    ∀ (rem i : Nat) (e0 e1 e2 o e1a e2a : List Int),
      Dither.atkRowAux width row i rem e0 e1 e2 = some (o, e1a, e2a) →
      o.length = e0.length ∧ e1a.length = e1.length ∧ e2a.length = e2.length := by
  intro rem
  induction rem with
  | zero =>
    intro i e0 e1 e2 o e1a e2a h
    simp only [Dither.atkRowAux] at h
    injection h with h
    rw [Prod.mk.injEq] at h
    obtain ⟨h1, h2⟩ := h
    rw [Prod.mk.injEq] at h2
    obtain ⟨h2, h3⟩ := h2
    subst h1
    subst h2
    subst h3
    exact ⟨rfl, rfl, rfl⟩
  | succ rem ih =>
    intro i e0 e1 e2 o e1a e2a h
    cases hc : Dither.atkCol width row i e0 e1 e2 with
    | none => rw [Dither.atkRowAux, hc] at h; cases h
    | some pr =>
      obtain ⟨e0b, e1b, e2b⟩ := pr
      rw [Dither.atkRowAux, hc] at h
      have hlen := atkCol_lengths width row i e0 e1 e2 e0b e1b e2b hc
      have hrec := ih (i + 1) e0b e1b e2b o e1a e2a h
      exact ⟨hrec.1.trans hlen.1, hrec.2.1.trans hlen.2.1, hrec.2.2.trans hlen.2.2⟩

lemma atkRowAux_bin (width : Nat) (row : List Nat) :
    ∀ (rem i : Nat) (e0 e1 e2 o e1a e2a : List Int), i + rem = width →
      e0.length = width →
      (∀ p, p < i → e0.getD p 0 = 0x00 ∨ e0.getD p 0 = 0xFF) →
      Dither.atkRowAux width row i rem e0 e1 e2 = some (o, e1a, e2a) →
      ∀ p, p < width → o.getD p 0 = 0x00 ∨ o.getD p 0 = 0xFF := by
  intro rem
  induction rem with
  | zero =>
    intro i e0 e1 e2 o e1a e2a hiw hlen hbin h
    simp only [Dither.atkRowAux] at h
    injection h with h
    rw [Prod.mk.injEq] at h
    obtain ⟨h1, _⟩ := h
    subst h1
    exact fun p hp => hbin p (by omega)
  | succ rem ih =>
    intro i e0 e1 e2 o e1a e2a hiw hlen hbin h
    cases hg : row[i]? with
    | none =>
      rw [Dither.atkRowAux, Dither.atkCol, hg] at h
      cases h
    | some s =>
      simp only [Dither.atkRowAux, Dither.atkCol, hg] at h
      refine ih (i + 1) _ _ _ o e1a e2a (by omega) ?_ ?_ h
      · rw [ite_listAdd_length, ite_listAdd_length, List.length_set]
        exact hlen
      · intro p hp
        rw [getD_ite_listAdd _ _ _ (by omega : p ≠ i + 2),
          getD_ite_listAdd _ _ _ (by omega : p ≠ i + 1), getD_set]
        by_cases hpi : p = i
        · subst hpi
          rw [if_pos ⟨rfl, by omega⟩]
          by_cases hq : (0x3F : Int) < (s : Int) + e0.getD p 0
          · right; rw [if_pos hq]
          · left; rw [if_neg hq]
        · rw [if_neg (by tauto)]
          exact hbin p (by omega)

lemma atkGo_bin (width : Nat) :
    ∀ (rows : List (List Nat)) (e0 e1 : List Int), e0.length = width →
      e1.length = width →
      ∀ out ∈ Dither.atkGo width rows e0 e1, ∀ b ∈ out, b = 0x00 ∨ b = 0xFF := by
  intro rows
  induction rows with
  | nil =>
    intro e0 e1 _ _ out hout
    simp [Dither.atkGo] at hout
  | cons row rest ih =>
    intro e0 e1 hlen0 hlen1 out hout b hb
    rw [Dither.atkGo] at hout
    cases hr : Dither.atkRow width row e0 e1 with
    | none =>
      rw [hr] at hout
      simp at hout
    | some pr =>
      obtain ⟨o, e1a, e2a⟩ := pr
      rw [hr] at hout
      simp only [List.mem_cons] at hout
      rcases hout with rfl | hout
      · have hbin := atkRowAux_bin width row width 0 e0 e1 (List.replicate width 0)
          out e1a e2a (by omega) hlen0 (fun p hp => absurd hp (by omega)) hr
        have holen : out.length = width := by
          have := atkRowAux_lengths width row width 0 e0 e1 (List.replicate width 0)
            out e1a e2a hr
          rw [this.1, hlen0]
        obtain ⟨p, hp, hpb⟩ := List.mem_iff_getElem.mp hb
        have hres := hbin p (by omega)
        rwa [List.getD_eq_getElem out 0 hp, hpb] at hres
      · have hlens := atkRowAux_lengths width row width 0 e0 e1 (List.replicate width 0)
          o e1a e2a hr
        exact ih e1a e2a (hlens.2.1.trans hlen1)
          (hlens.2.2.trans (List.length_replicate width 0)) out hout b hb

/-- Claim C10: every row yielded by `bayer8`, `blue_noise` (for any threshold
tile), `floyd_steinberg` and src/dither.py's `atkinson` contains only the
byte values 0x00 and 0xFF, so the downstream packer's dark test
(`byte == 0x00`) cleanly partitions every dithered value. -/
theorem c10_binary_outputs :
    (∀ (rows : List (List Nat)), ∀ out ∈ Dither.bayer8 rows, ∀ b ∈ out,
      b = 0x00 ∨ b = 0xFF) ∧
    (∀ (tile : Nat → Nat → Nat) (rows : List (List Nat)),
      ∀ out ∈ Dither.blue_noise tile rows, ∀ b ∈ out, b = 0x00 ∨ b = 0xFF) ∧
    (∀ (width : Nat) (rows : List (List Nat)),
      ∀ out ∈ Dither.floyd_steinberg width rows, ∀ b ∈ out,
        b = 0x00 ∨ b = 0xFF) ∧
    (∀ (width : Nat) (rows : List (List Nat)),
      ∀ out ∈ Dither.atkinson width rows, ∀ b ∈ out, b = 0x00 ∨ b = 0xFF) := by
  refine ⟨?_, ?_, ?_, ?_⟩
  · intro rows out hout b hb
    simp only [Dither.bayer8, List.mem_map] at hout
    obtain ⟨jr, _, rfl⟩ := hout
    simp only [List.mem_map] at hb
    obtain ⟨ib, _, rfl⟩ := hb
    by_cases h : Dither.bayer8_at ib.1 jr.1 ≤ ib.2
    · right; rw [if_pos h]
    · left; rw [if_neg h]
  · intro tile rows out hout b hb
    simp only [Dither.blue_noise, List.mem_map] at hout
    obtain ⟨jr, _, rfl⟩ := hout
    simp only [List.mem_map] at hb
    obtain ⟨ib, _, rfl⟩ := hb
    by_cases h : tile ib.1 jr.1 < ib.2
    · right; rw [if_pos h]
    · left; rw [if_neg h]
  · intro width rows out hout b hb
    exact floydSteinbergGo_bin width rows (List.replicate width 0)
      (List.length_replicate width 0) out hout b hb
  · intro width rows out hout b hb
    exact atkGo_bin width rows (List.replicate width 0) (List.replicate width 0)
      (List.length_replicate width 0) (List.length_replicate width 0) out hout b hb

/-- Witness for `c10_binary_outputs`: concrete one-pixel streams through each
of the four ditherers. -/
theorem c10_witness :
    ((255 : Nat) = 0x00 ∨ (255 : Nat) = 0xFF) ∧
    ((0 : Nat) = 0x00 ∨ (0 : Nat) = 0xFF) ∧
    ((255 : Int) = 0x00 ∨ (255 : Int) = 0xFF) ∧
    ((0 : Int) = 0x00 ∨ (0 : Int) = 0xFF) :=
  ⟨c10_binary_outputs.1 [[200]] [255] (by decide) 255 (by decide),
    c10_binary_outputs.2.1 (fun _ _ => 255) [[200]] [0] (by decide) 0 (by decide),
    c10_binary_outputs.2.2.1 1 [[200]] [255] (by decide) 255 (by decide),
    c10_binary_outputs.2.2.2 1 [[0]] [0] (by decide) 0 (by decide)⟩

/-! ### Claim C4: Floyd–Steinberg matches the spec's step-by-step description -/

lemma getD_set_self_of_lt (l : List Int) (i : Nat) (a : Int) (h : i < l.length) :
    (l.set i a).getD i 0 = a := by
  rw [getD_set, if_pos (show i = i ∧ i < l.length from ⟨rfl, h⟩)]

lemma getD_set_of_ne (l : List Int) {i p : Nat} (a : Int) (h : p ≠ i) :
    (l.set i a).getD p 0 = l.getD p 0 := by
  rw [getD_set, if_neg (by tauto)]

lemma getD_listAdd_self_of_lt (l : List Int) (i : Nat) (v : Int) (h : i < l.length) :
    (listAdd l i v).getD i 0 = l.getD i 0 + v := by
  rw [listAdd_getD, if_pos (show i = i ∧ i < l.length from ⟨rfl, h⟩)]

lemma fsRowAux_spec (width : Nat) (row : List Nat) :
    ∀ (rem i : Nat) (e0c out e0s e1 : List Int), i + rem = width →
      e0c.length = width → out.length = width → e0s.length = width →
      (∀ p, p < i → e0c.getD p 0 = out.getD p 0) →
      (∀ p, i ≤ p → e0c.getD p 0 = e0s.getD p 0) →
      Dither.fsRowAux width row i rem e0c e1 =
        (Dither.fsSpecRowAux width row i rem out e0s e1).map (fun r => (r.1, r.2.2)) := by
  intro rem
  induction rem with
  | zero =>
    intro i e0c out e0s e1 hiw hlc hlo hls h1 h2
    have hco : e0c = out := by
      apply List.ext_getElem (by omega)
      intro p hp1 hp2
      have hx := h1 p (by omega)
      rwa [List.getD_eq_getElem e0c 0 hp1, List.getD_eq_getElem out 0 hp2] at hx
    rw [hco]
    simp [Dither.fsRowAux, Dither.fsSpecRowAux]
  | succ rem ih =>
    intro i e0c out e0s e1 hiw hlc hlo hls h1 h2
    cases hg : row[i]? with
    | none =>
      rw [Dither.fsRowAux, Dither.fsCol, hg, Dither.fsSpecRowAux, Dither.fsSpecCol, hg]
      rfl
    | some s =>
      have htot : e0s.getD i 0 = e0c.getD i 0 := (h2 i (le_refl i)).symm
      simp only [Dither.fsRowAux, Dither.fsCol, Dither.fsSpecRowAux, Dither.fsSpecCol,
        hg, htot]
      apply ih (i + 1)
      · omega
      · rw [ite_listAdd_length, List.length_set]
        exact hlc
      · rw [List.length_set]
        exact hlo
      · rw [ite_listAdd_length]
        exact hls
      · intro p hp
        rw [getD_ite_listAdd _ _ _ (by omega : p ≠ i + 1)]
        by_cases hpi : p = i
        · rw [hpi, getD_set_self_of_lt _ _ _ (by omega),
            getD_set_self_of_lt _ _ _ (by omega)]
        · rw [getD_set_of_ne _ _ hpi, getD_set_of_ne _ _ hpi]
          exact h1 p (by omega)
      · intro p hp
        by_cases hc : i < width - 1
        · rw [if_pos hc, if_pos hc]
          by_cases hpi : p = i + 1
          · rw [hpi, getD_listAdd_self_of_lt _ _ _ (by rw [List.length_set]; omega),
              getD_listAdd_self_of_lt _ _ _ (by omega),
              getD_set_of_ne _ _ (by omega : i + 1 ≠ i), h2 (i + 1) (by omega)]
          · rw [getD_listAdd_ne _ _ hpi, getD_listAdd_ne _ _ hpi,
              getD_set_of_ne _ _ (by omega : p ≠ i)]
            exact h2 p (by omega)
        · rw [if_neg hc, if_neg hc, getD_set_of_ne _ _ (by omega : p ≠ i)]
          exact h2 p (by omega)

lemma fsRow_spec (width : Nat) (row : List Nat) (e0 : List Int)
    (h : e0.length = width) :
    Dither.fsRow width row e0 = Dither.fsSpecRow width row e0 := by
  rw [Dither.fsRow, Dither.fsSpecRow,
    fsRowAux_spec width row width 0 e0 (List.replicate width 0) e0
      (List.replicate width 0) (by omega) h (List.length_replicate width 0) h
      (fun p hp => absurd hp (by omega)) (fun p _ => rfl)]
  cases hx : Dither.fsSpecRowAux width row 0 width (List.replicate width 0) e0
      (List.replicate width 0) with
  | none => rfl
  | some pr =>
    obtain ⟨a, b, c⟩ := pr
    rfl

lemma fsGo_spec (width : Nat) :
    ∀ (rows : List (List Nat)) (e0 : List Int), e0.length = width →
      Dither.floydSteinbergGo width rows e0 =
        Dither.floydSteinbergSpecGo width rows e0 := by
  intro rows
  induction rows with
  | nil => intro e0 _; rfl
  | cons row rest ih =>
    intro e0 hlen
    rw [Dither.floydSteinbergGo, Dither.floydSteinbergSpecGo,
      ← fsRow_spec width row e0 hlen]
    cases hr : Dither.fsRow width row e0 with
    | none => rfl
    | some pr =>
      obtain ⟨o, e1⟩ := pr
      have he1 : e1.length = width := by
        have := fsRowAux_lengths width row width 0 e0 (List.replicate width 0) o e1 hr
        rw [this.2, List.length_replicate]
      show o :: Dither.floydSteinbergGo width rest e1 =
        o :: Dither.floydSteinbergSpecGo width rest e1
      rw [ih e1 he1]

/-- Claim C4: for every width and every row stream, the source
`floyd_steinberg` (which reuses `errors0` in place as the output buffer)
yields exactly the rows and carries exactly the accumulator state prescribed
by the spec's step-by-step description: left-to-right columns,
`total = sample[i] + errors0[i]`, output `0xFF` iff `total > 0x3F`,
`error = floorDiv(total - output[i], 16)`, the 7/1/3/5 distribution with
boundary skips, and `errors0 := errors1; errors1 := fresh zeros` after each
row. -/
theorem c4_floyd_steinberg_refines_spec (width : Nat) (rows : List (List Nat)) :
    Dither.floyd_steinberg width rows = Dither.floydSteinbergFromSpec width rows := by
  rw [Dither.floyd_steinberg, Dither.floydSteinbergFromSpec]
  exact fsGo_spec width rows (List.replicate width 0) (List.length_replicate width 0)

/-! ### Claims C5 and C6: the bit packer `encode` -/

lemma bitv_lt_two (b : Nat) : Hello.bitv b < 2 := by
  rw [Hello.bitv]
  split
  · norm_num
  · norm_num

lemma packGroup_append (g : List Nat) (b : Nat) :
    Hello.packGroup (g ++ [b]) = Hello.packGroup g * 2 + Hello.bitv b := by
  simp [Hello.packGroup, List.foldl_append]

lemma packGroup_lt (g : List Nat) : Hello.packGroup g < 2 ^ g.length := by
  induction g using List.reverseRecOn with
  | nil => simp [Hello.packGroup]
  | append_singleton g b ih =>
    rw [packGroup_append]
    simp only [List.length_append, List.length_singleton]
    have hb := bitv_lt_two b
    have h2 : 2 ^ (g.length + 1) = 2 ^ g.length * 2 := by ring
    omega

lemma packGroup_testBit (g : List Nat) :
    ∀ (t : Nat) (b : Nat), g[t]? = some b →
      Hello.packGroup g / 2 ^ (g.length - 1 - t) % 2 = Hello.bitv b := by
  induction g using List.reverseRecOn with
  | nil => intro t b h; simp at h
  | append_singleton g x ih =>
    intro t b h
    by_cases ht : t < g.length
    · rw [List.getElem?_append_left ht] at h
      rw [packGroup_append]
      have hlen : (g ++ [x]).length - 1 - t = (g.length - 1 - t) + 1 := by
        simp only [List.length_append, List.length_singleton]
        omega
      rw [hlen, pow_succ', ← Nat.div_div_eq_div_mul]
      have hdiv : (Hello.packGroup g * 2 + Hello.bitv x) / 2 = Hello.packGroup g := by
        have := bitv_lt_two x
        omega
      rw [hdiv]
      exact ih t b h
    · have hlt : t < (g ++ [x]).length := by
        by_contra hc
        rw [List.getElem?_eq_none (Nat.le_of_not_lt hc)] at h
        cases h
      have ht' : t = g.length := by
        simp only [List.length_append, List.length_singleton] at hlt
        omega
      subst ht'
      rw [List.getElem?_concat_length] at h
      injection h with h
      subst h
      rw [packGroup_append]
      have hlen : (g ++ [x]).length - 1 - g.length = 0 := by
        simp only [List.length_append, List.length_singleton]
        omega
      rw [hlen, pow_zero, Nat.div_one]
      have := bitv_lt_two x
      omega

lemma encodeAux_mod (row : List Nat) :
    ∀ (i j c : Nat), i % 8 = j % 8 → Hello.encodeAux row i c = Hello.encodeAux row j c := by
  induction row with
  | nil =>
    intro i j c h
    simp only [Hello.encodeAux]
    rw [h]
  | cons b rest ih =>
    intro i j c h
    simp only [Hello.encodeAux]
    rw [h]
    have h1 : (i + 1) % 8 = (j + 1) % 8 := by omega
    by_cases hj : j % 8 = 7
    · simp only [if_pos hj]
      rw [ih (i + 1) (j + 1) 0 h1]
    · simp only [if_neg hj]
      exact ih (i + 1) (j + 1) _ h1

lemma encodeAux_short (row : List Nat) :
    ∀ (i c : Nat), i < 8 → i + row.length ≤ 8 →
      Hello.encodeAux row i c =
        if i + row.length = 0 then []
        else [row.foldl (fun a b => a * 2 + Hello.bitv b) c] := by
  induction row with
  | nil =>
    intro i c hi hle
    simp only [Hello.encodeAux, List.length_nil, Nat.add_zero, List.foldl_nil]
    by_cases h0 : i = 0
    · subst h0
      simp
    · rw [if_pos (show i % 8 ≠ 0 from by omega), if_neg h0]
  | cons b rest ih =>
    intro i c hi hle
    simp only [Hello.encodeAux]
    by_cases h7 : i % 8 = 7
    · have hi7 : i = 7 := by omega
      have hrest : rest = [] := List.length_eq_zero.mp (by
        simp only [List.length_cons] at hle
        omega)
      subst hrest
      subst hi7
      rw [if_pos h7]
      simp [Hello.encodeAux, List.foldl]
    · rw [if_neg h7]
      rw [ih (i + 1) _ (by omega) (by simp only [List.length_cons] at hle ⊢; omega)]
      rw [if_neg (by omega), if_neg (by simp only [List.length_cons]; omega)]
      simp [List.foldl_cons]

lemma encodeAux_group (g rest : List Nat) (c : Nat) (hg : g.length = 8) :
    Hello.encodeAux (g ++ rest) 0 c =
      (g.foldl (fun a b => a * 2 + Hello.bitv b) c) :: Hello.encodeAux rest 0 0 := by
  rcases g with _ | ⟨b0, g⟩
  · simp at hg
  rcases g with _ | ⟨b1, g⟩
  · simp at hg
  rcases g with _ | ⟨b2, g⟩
  · simp at hg
  rcases g with _ | ⟨b3, g⟩
  · simp at hg
  rcases g with _ | ⟨b4, g⟩
  · simp at hg
  rcases g with _ | ⟨b5, g⟩
  · simp at hg
  rcases g with _ | ⟨b6, g⟩
  · simp at hg
  rcases g with _ | ⟨b7, g⟩
  · simp at hg
  have hnil : g = [] := List.length_eq_zero.mp (by
    simp only [List.length_cons] at hg
    omega)
  subst hnil
  simp only [List.cons_append, List.nil_append]
  simp [Hello.encodeAux, List.foldl_cons, List.foldl_nil]
  exact encodeAux_mod rest 8 0 0 (by norm_num)

lemma encodeRow_eq_chunks (row : List Nat) :
    Hello.encodeRow row = (Hello.chunks8 row).map Hello.packGroup := by
  suffices H : ∀ (n : Nat) (row : List Nat), row.length ≤ n →
      Hello.encodeRow row = (Hello.chunks8 row).map Hello.packGroup from
    H row.length row le_rfl
  intro n
  induction n with
  | zero =>
    intro row h
    have hnil : row = [] := List.length_eq_zero.mp (by omega)
    subst hnil
    simp [Hello.encodeRow, Hello.encodeAux, Hello.chunks8]
  | succ n ih =>
    intro row h
    rcases row with _ | ⟨b, rest⟩
    · simp [Hello.encodeRow, Hello.encodeAux, Hello.chunks8]
    · simp only [List.length_cons] at h
      by_cases h7 : rest.length ≤ 7
      · rw [Hello.encodeRow,
          encodeAux_short (b :: rest) 0 0 (by norm_num)
            (by simp only [List.length_cons]; omega),
          if_neg (by simp only [List.length_cons]; omega)]
        rw [Hello.chunks8, List.take_of_length_le h7,
          List.drop_eq_nil_of_le h7]
        simp [Hello.chunks8, Hello.packGroup]
      · have hrow : b :: rest = (b :: rest.take 7) ++ rest.drop 7 := by
          rw [List.cons_append, List.take_append_drop]
        rw [Hello.encodeRow, Hello.chunks8, hrow,
          encodeAux_group (b :: rest.take 7) (rest.drop 7) 0
            (by simp only [List.length_cons, List.length_take]; omega),
          List.map_cons]
        congr 1
        exact ih (rest.drop 7) (by simp only [List.length_drop]; omega)

lemma chunks8_length (row : List Nat) :
    (Hello.chunks8 row).length = (row.length + 7) / 8 := by
  suffices H : ∀ (n : Nat) (row : List Nat), row.length ≤ n →
      (Hello.chunks8 row).length = (row.length + 7) / 8 from H row.length row le_rfl
  intro n
  induction n with
  | zero =>
    intro row h
    have hnil : row = [] := List.length_eq_zero.mp (by omega)
    subst hnil
    simp [Hello.chunks8]
  | succ n ih =>
    intro row h
    rcases row with _ | ⟨b, rest⟩
    · simp [Hello.chunks8]
    · simp only [List.length_cons] at h
      rw [Hello.chunks8]
      simp only [List.length_cons]
      rw [ih (rest.drop 7) (by simp only [List.length_drop]; omega)]
      simp only [List.length_drop]
      omega

lemma chunks8_getElem? (row : List Nat) :
    ∀ (q : Nat), (Hello.chunks8 row)[q]? =
      if 8 * q < row.length then some ((row.drop (8 * q)).take 8) else none := by
  suffices H : ∀ (n : Nat) (row : List Nat) (q : Nat), row.length ≤ n →
      (Hello.chunks8 row)[q]? =
        if 8 * q < row.length then some ((row.drop (8 * q)).take 8) else none from
    fun q => H row.length row q le_rfl
  intro n
  induction n with
  | zero =>
    intro row q h
    have hnil : row = [] := List.length_eq_zero.mp (by omega)
    subst hnil
    simp [Hello.chunks8]
  | succ n ih =>
    intro row q h
    rcases row with _ | ⟨b, rest⟩
    · simp [Hello.chunks8]
    · simp only [List.length_cons] at h
      rcases q with _ | q
      · rw [Hello.chunks8]
        simp only [List.getElem?_cons_zero, Nat.mul_zero, List.drop_zero]
        rw [if_pos (by simp only [List.length_cons]; omega)]
        rfl
      · rw [Hello.chunks8]
        simp only [List.getElem?_cons_succ]
        rw [ih (rest.drop 7) q (by simp only [List.length_drop]; omega)]
        have hdd : (b :: rest).drop (8 * (q + 1)) = (rest.drop 7).drop (8 * q) := by
          rw [List.drop_drop, show 8 * (q + 1) = (7 + 8 * q) + 1 by ring,
            List.drop_succ_cons]
        by_cases hc : 8 * q < (rest.drop 7).length
        · rw [if_pos hc, if_pos (by
            simp only [List.length_drop] at hc
            simp only [List.length_cons]
            omega)]
          rw [hdd]
        · rw [if_neg hc, if_neg (by
            simp only [List.length_drop] at hc
            simp only [List.length_cons]
            omega)]

lemma encodeRow_bitAt (row : List Nat) (k : Nat) (b : Nat) (hk : row[k]? = some b) :
    Hello.bitAt row.length (Hello.encodeRow row) k = Hello.bitv b := by
  have hklen : k < row.length := by
    by_contra hc
    rw [List.getElem?_eq_none (Nat.le_of_not_lt hc)] at hk
    cases hk
  rw [encodeRow_eq_chunks, Hello.bitAt]
  by_cases hq : k / 8 < row.length / 8
  · rw [if_pos hq]
    have hby : ((Hello.chunks8 row).map Hello.packGroup)[k / 8]? =
        some (Hello.packGroup ((row.drop (8 * (k / 8))).take 8)) := by
      rw [List.getElem?_map, chunks8_getElem? row (k / 8),
        if_pos (by omega : 8 * (k / 8) < row.length)]
      rfl
    rw [List.getD_eq_getElem?_getD, hby, Option.getD_some]
    have hglen : ((row.drop (8 * (k / 8))).take 8).length = 8 := by
      simp only [List.length_take, List.length_drop]
      omega
    have hgk : ((row.drop (8 * (k / 8))).take 8)[k % 8]? = some b := by
      rw [List.getElem?_take_of_lt (by omega : k % 8 < 8), List.getElem?_drop,
        show 8 * (k / 8) + k % 8 = k from Nat.div_add_mod k 8]
      exact hk
    have hbit := packGroup_testBit _ (k % 8) b hgk
    rw [hglen] at hbit
    exact hbit
  · rw [if_neg hq]
    have hq8 : k / 8 = row.length / 8 := by omega
    have hby : ((Hello.chunks8 row).map Hello.packGroup)[row.length / 8]? =
        some (Hello.packGroup ((row.drop (8 * (row.length / 8))).take 8)) := by
      rw [List.getElem?_map, chunks8_getElem? row (row.length / 8),
        if_pos (by omega : 8 * (row.length / 8) < row.length)]
      rfl
    rw [List.getD_eq_getElem?_getD, hby, Option.getD_some]
    have hglen : ((row.drop (8 * (row.length / 8))).take 8).length = row.length % 8 := by
      simp only [List.length_take, List.length_drop]
      omega
    have hgk : ((row.drop (8 * (row.length / 8))).take 8)[k % 8]? = some b := by
      rw [List.getElem?_take_of_lt (by omega : k % 8 < 8), List.getElem?_drop, ← hq8,
        show 8 * (k / 8) + k % 8 = k from Nat.div_add_mod k 8]
      exact hk
    have hbit := packGroup_testBit _ (k % 8) b hgk
    rw [hglen] at hbit
    exact hbit

/-- Claim C5, counterexample: the final partial byte is low-aligned, not
MSB-aligned.  Packing the single dark sample `[0x00]` yields the byte `0x01`
(the decision in bit 0), whereas the claimed layout (decision `k` at bit
`7 - (k mod 8)`) would require `0x80` with the low-order bits zero-padded. -/
theorem c5_counterexample :
    Hello.encodeRow [0x00] = [0x01] ∧ Hello.encodeRow [0x00] ≠ [0x80] := by
  refine ⟨by decide, by decide⟩

/-- Claim C5, amended: `encode` emits `ceil(len/8)` bytes per row; decisions
in complete groups of 8 sit MSB-first (decision `k` at bit `7 - (k mod 8)` of
byte `k / 8`), but the final partial group of `len mod 8` decisions sits in
the LOW-order bits of the final byte (MSB-first among themselves, the unused
high-order bits zero, so the final byte is `< 2 ^ (len mod 8)`); packing then
unpacking with the matching inverse `unpackBits` reproduces the original bit
pattern exactly. -/
theorem c5_amended (row : List Nat) :
    (Hello.encodeRow row).length = (row.length + 7) / 8 ∧
    Hello.unpackBits row.length (Hello.encodeRow row) = row.map Hello.bitv ∧
    (Hello.encodeRow row).getD (row.length / 8) 0 <
      2 ^ (if row.length % 8 = 0 then 8 else row.length % 8) := by
  refine ⟨?_, ?_, ?_⟩
  · rw [encodeRow_eq_chunks, List.length_map, chunks8_length]
  · apply List.ext_getElem?
    intro k
    rw [Hello.unpackBits, List.getElem?_map, List.getElem?_map]
    by_cases hk : k < row.length
    · rw [List.getElem?_range hk, List.getElem?_eq_getElem hk]
      simp only [Option.map_some']
      rw [encodeRow_bitAt row k row[k] (List.getElem?_eq_getElem hk)]
    · rw [List.getElem?_eq_none (by rw [List.length_range]; omega),
        List.getElem?_eq_none (by omega)]
      simp
  · by_cases h8 : row.length % 8 = 0
    · rw [if_pos h8, List.getD_eq_getElem?_getD, List.getElem?_eq_none
        (by rw [encodeRow_eq_chunks, List.length_map, chunks8_length]; omega),
        Option.getD_none]
      norm_num
    · rw [if_neg h8, encodeRow_eq_chunks]
      have hby : ((Hello.chunks8 row).map Hello.packGroup)[row.length / 8]? =
          some (Hello.packGroup ((row.drop (8 * (row.length / 8))).take 8)) := by
        rw [List.getElem?_map, chunks8_getElem? row (row.length / 8),
          if_pos (by omega : 8 * (row.length / 8) < row.length)]
        rfl
      rw [List.getD_eq_getElem?_getD, hby, Option.getD_some]
      have hlt := packGroup_lt ((row.drop (8 * (row.length / 8))).take 8)
      have hglen : ((row.drop (8 * (row.length / 8))).take 8).length =
          row.length % 8 := by
        simp only [List.length_take, List.length_drop]
        omega
      rw [hglen] at hlt
      exact hlt

/-- Claim C6, counterexample: the packer's dark predicate is `byte == 0x00`,
not `byte <= 0x3F`.  The sample `0x01` is `<= 0x3F`, so the claim requires
bit 1, but `encode` emits bit 0 for it. -/
theorem c6_counterexample :
    Hello.encodeRow [0x01] = [0x00] ∧ (0x01 : Nat) ≤ 0x3F := by
  refine ⟨by decide, by decide⟩

/-- Claim C6, amended: the dark predicate of `encode` is `sample == 0x00`:
the packed bit for a sample is 1 exactly when the sample equals `0x00`, and
0 for every other sample value (src/hello.py's own docstring: "encode 0x00
into 0b1, other into 0b0"). -/
theorem c6_amended (row : List Nat) (k : Nat) (b : Nat) (hk : row[k]? = some b) :
    (Hello.bitAt row.length (Hello.encodeRow row) k = 1 ↔ b = 0) ∧
    (Hello.bitAt row.length (Hello.encodeRow row) k = 0 ↔ b ≠ 0) := by
  rw [encodeRow_bitAt row k b hk, Hello.bitv]
  by_cases hb : b = 0
  · rw [if_pos hb]
    simp [hb]
  · rw [if_neg hb]
    simp [hb]

/-- Witness for `c6_amended` at the one-sample row `[5]`. -/
theorem c6_witness :
    (Hello.bitAt ([5] : List Nat).length (Hello.encodeRow [5]) 0 = 1 ↔ (5 : Nat) = 0) ∧
    (Hello.bitAt ([5] : List Nat).length (Hello.encodeRow [5]) 0 = 0 ↔ (5 : Nat) ≠ 0) :=
  c6_amended [5] 0 5 (by decide)
